import Mathlib

/-!
Shallow embedding of the ingestion and ordering core of
`src/src/UltraDashboard.jsx` (Ultra Marathon Schedule Dashboard).

The embedded functions are `parseCsvToRaces` (CSV text → race records,
with header detection, synonym-based column resolution, row
normalization) and `sortByMonth` (sorting races by calendar-month rank
with a name tie-break).

Modelling conventions:
* JavaScript strings are Lean `String`s; `jsTrim`, `jsToLower`,
  `jsSplit` below model `trim()`, `toLowerCase()`, `split(",")` /
  `split("\n")` character by character (the inputs involved are plain
  ASCII text), with structural recursion so that every definition
  evaluates inside the kernel.
* `Number.isNaN(Number(t))` on an already-trimmed `t` is modelled by the
  recognizer `jsIsNumeric` below, which follows the ECMAScript
  StringNumericLiteral grammar (decimal literals with optional sign,
  fraction and exponent, `Infinity`, and unsigned `0x`/`0o`/`0b`
  radix literals; the empty string converts to `0`, not `NaN`).
* `Array.prototype.indexOf` (first index or `-1`) is `jsIndexOf`,
  returning an `Int`.
* `Array.prototype.sort` with a consistent comparator is required by
  ECMAScript (since ES2019) to produce the stable sorted permutation of
  its input, which is unique for a total preorder; `List.mergeSort` is a
  stable sort, so it models `sort` exactly.  `localeCompare` on the race
  names is modelled by code-point lexicographic order on `String`.
* `Date.now()` is modelled by an explicit parameter `now : Nat`;
  exceptions (`throw new Error(msg)`) become `Except String`.
-/

namespace UltraDashboard

/-- The whitespace characters stripped by `String.prototype.trim`
(ASCII whitespace plus no-break space; sufficient for the inputs in
scope). -/
def jsIsSpace (c : Char) : Bool :=
  c == ' ' || c == '\t' || c == '\n' || c == '\r' ||
    c == '\x0b' || c == '\x0c' || c == '\xa0'

/-- `String.prototype.trim`: strip whitespace from both ends. -/
def jsTrim (s : String) : String :=
  String.mk (((s.toList.dropWhile jsIsSpace).reverse.dropWhile jsIsSpace).reverse)

/-- `String.prototype.split` with a single-character separator, on
character lists: splitting the empty text yields one empty cell. -/
def jsSplitChar (sep : Char) : List Char → List (List Char)
  | [] => [[]]
  | c :: rest =>
    if c == sep then [] :: jsSplitChar sep rest
    else
      match jsSplitChar sep rest with
      | [] => [[c]]
      | h :: t => (c :: h) :: t

/-- `String.prototype.split` with a single-character separator. -/
def jsSplit (sep : Char) (s : String) : List String :=
  (jsSplitChar sep s.toList).map String.mk

/-- `String.prototype.toLowerCase` on one character (the header names
in scope are ASCII). -/
def jsToLowerChar (c : Char) : Char :=
  if 'A' ≤ c ∧ c ≤ 'Z' then Char.ofNat (c.toNat + 32) else c

/-- `String.prototype.toLowerCase`. -/
def jsToLower (s : String) : String :=
  String.mk (s.toList.map jsToLowerChar)

/-- Decimal digit (ECMAScript `DecimalDigit`). -/
def isDecDigit (c : Char) : Bool := c.isDigit

/-- Hexadecimal digit (ECMAScript `HexDigit`). -/
def isHexDigit (c : Char) : Bool :=
  c.isDigit || (decide ('a' ≤ c) && decide (c ≤ 'f')) || (decide ('A' ≤ c) && decide (c ≤ 'F'))

/-- Octal digit (ECMAScript `OctalDigit`). -/
def isOctDigit (c : Char) : Bool := decide ('0' ≤ c) && decide (c ≤ '7')

/-- Binary digit (ECMAScript `BinaryDigit`). -/
def isBinDigit (c : Char) : Bool := c == '0' || c == '1'

/-- Strip one optional leading sign character. -/
def stripSign : List Char → List Char
  | '+' :: r => r
  | '-' :: r => r
  | r => r

/-- Recognize an optional ECMAScript `ExponentPart` covering a whole
character-list remainder: either nothing, or `e`/`E`, an optional sign,
and at least one decimal digit. -/
def expOk : List Char → Bool
  | [] => true
  | c :: rest =>
    (c == 'e' || c == 'E') &&
      (let d := stripSign rest
       !d.isEmpty && d.all isDecDigit)

/-- Recognize an unsigned ECMAScript `DecimalLiteral` (digits, optional
fraction, optional exponent; a lone `.` is not a literal). -/
def decOk (cs : List Char) : Bool :=
  let intPart := cs.takeWhile isDecDigit
  let rest := cs.dropWhile isDecDigit
  match rest with
  | [] => !intPart.isEmpty
  | '.' :: rest2 =>
    let frac := rest2.takeWhile isDecDigit
    let rest3 := rest2.dropWhile isDecDigit
    (!intPart.isEmpty || !frac.isEmpty) && expOk rest3
  | _ => !intPart.isEmpty && expOk rest

/-- `jsIsNumeric t = true` iff `Number(t)` is not `NaN` in JavaScript,
for an already-trimmed string `t` (ECMAScript `StringNumericLiteral`):
the empty string converts to `0`; `Infinity` with optional sign;
unsigned `0x`/`0o`/`0b` radix literals; signed decimal literals. -/
def jsIsNumeric (s : String) : Bool :=
  match s.toList with
  | [] => true
  | c0 :: rest0 =>
    let cs := c0 :: rest0
    if stripSign cs = "Infinity".toList then true
    else
      match cs with
      | '0' :: x :: rest =>
        if x == 'x' || x == 'X' then !rest.isEmpty && rest.all isHexDigit
        else if x == 'o' || x == 'O' then !rest.isEmpty && rest.all isOctDigit
        else if x == 'b' || x == 'B' then !rest.isEmpty && rest.all isBinDigit
        else decOk cs
      | _ => decOk (stripSign cs)

/-- `line.replace(/\r$/, "")`: strip a single trailing carriage return. -/
def stripCR (line : String) : String :=
  match line.toList.reverse with
  | '\r' :: rest => String.mk rest.reverse
  | _ => line

/-- The line preprocessing of `parseCsvToRaces`: split the text on `"\n"`,
strip trailing `"\r"` from each line, and keep only lines whose trimmed
content is non-empty. -/
def nonBlankLines (text : String) : List String :=
  ((jsSplit '\n' text).map stripCR).filter (fun l => jsTrim l != "")

/-- The header-detection heuristic of `parseCsvToRaces`: the first line
looks like a header iff some cell is non-empty after trimming and does
not parse as a number (`Number.isNaN(Number(trimmed))`). -/
def looksLikeHeader (cells : List String) : Bool :=
  cells.any fun cell =>
    let trimmed := jsTrim cell
    if trimmed == "" then false
    else !(jsIsNumeric trimmed)

/-- `Array.prototype.indexOf`: index of the first occurrence of `x` in
`l`, or `-1` if `x` does not occur. -/
def jsIndexOf (l : List String) (x : String) : Int :=
  match l with
  | [] => -1
  | y :: rest =>
    if y == x then 0
    else
      let r := jsIndexOf rest x
      if r == -1 then -1 else r + 1

/-- The `nameCandidates` synonym list of `parseCsvToRaces`. -/
def nameCandidates : List String :=
  ["name", "race", "race name", "race_name", "race title", "event", "event name"]

/-- The `monthCandidates` synonym list of `parseCsvToRaces`. -/
def monthCandidates : List String :=
  ["month", "race month", "month held", "month_of_race", "race month held"]

/-- The `websiteCandidates` synonym list of `parseCsvToRaces`. -/
def websiteCandidates : List String :=
  ["website", "url", "link", "race website", "race url"]

/-- `cands.map((key) => headers.indexOf(key)).find((idx) => idx !== -1)`:
the index resolution step of `parseCsvToRaces` for one synonym list. -/
def resolveIdx (cands headers : List String) : Option Int :=
  (cands.map (jsIndexOf headers)).find? (fun i => i != -1)

/-- The race record shape used by the dashboard. -/
structure Race where
  id : Nat
  name : String
  month : String
  website : String
  registered : Bool
  finishTime : String
deriving Repr, DecidableEq

/-- The `monthOrder` constant: calendar months January → December. -/
def monthOrder : List String :=
  ["January", "February", "March", "April", "May", "June",
   "July", "August", "September", "October", "November", "December"]

/-- The schema-resolution step of `parseCsvToRaces` on the non-blank
lines: returns `(nameIdx, monthIdx, websiteIdx, startIndex)`.  The
headered branch resolves each index from its synonym list over the
trimmed, lower-cased first-line cells; the headerless branch uses the
fixed positional layout `index,race,month,website`. -/
def schemaOf (lines : List String) : Option Int × Option Int × Option Int × Nat :=
  let firstLineCells := jsSplit ',' (lines.headD "")
  if looksLikeHeader firstLineCells then
    let headers := firstLineCells.map (fun h => jsToLower (jsTrim h))
    (resolveIdx nameCandidates headers, resolveIdx monthCandidates headers,
     resolveIdx websiteCandidates headers, 1)
  else
    (some 1, some 2, some 3, 0)

/-- `(cells[i] || "")` for an integer index: the cell at `i`, or `""`
when the index is out of range (JS `undefined` is falsy, and an empty
cell is already `""`). -/
def cellAt (cells : List String) (i : Int) : String :=
  if i < 0 then "" else cells.getD i.toNat ""

/-- The body of the row-normalization `map` in `parseCsvToRaces`:
build one race record from the enumerated line `p = (index, line)`. -/
def mkRace (now : Nat) (ni mi : Int) (wi : Option Int) (p : Nat × String) : Race :=
  let cells := jsSplit ',' p.2
  let name := jsTrim (cellAt cells ni)
  let month := jsTrim (cellAt cells mi)
  let website :=
    match wi with
    | some wiv => if wiv != -1 && cellAt cells wiv != "" then jsTrim (cellAt cells wiv) else ""
    | none => ""
  { id := now + p.1, name := name, month := month, website := website,
    registered := false, finishTime := "" }

/-- The final filter of `parseCsvToRaces`: `race.name && race.month`
(both truthy, i.e. non-empty). -/
def raceOk (r : Race) : Bool := r.name != "" && r.month != ""

/-- The schema-error message thrown by `parseCsvToRaces`. -/
def csvErrorMessage : String :=
  "CSV must provide race name and month columns. Example (no headers): index,race name,month,website"

/-- `parseCsvToRaces(text)`, with `Date.now()` passed as `now` and the
thrown `Error` modelled by `Except.error`. -/
def parseCsvToRaces (now : Nat) (text : String) : Except String (List Race) :=
  let lines := nonBlankLines text
  if lines.isEmpty then .ok []
  else
    match schemaOf lines with
    | (some ni, some mi, wi, startIndex) =>
      if ni == -1 || mi == -1 then .error csvErrorMessage
      else .ok ((((lines.drop startIndex).enum).map (mkRace now ni mi wi)).filter raceOk)
    | (_, _, _, _) => .error csvErrorMessage

/-- `Number.MAX_SAFE_INTEGER`. -/
def MAX_SAFE_INTEGER : Nat := 2 ^ 53 - 1

/-- The sort key computed inside the comparator of `sortByMonth`:
the index of the trimmed month in `monthOrder`, or
`Number.MAX_SAFE_INTEGER` when the month is unknown. -/
def raceKey (r : Race) : Nat :=
  let m := jsTrim r.month
  let i := jsIndexOf monthOrder m
  if i == -1 then MAX_SAFE_INTEGER else i.toNat

/-- `comparator(a, b) <= 0` for the comparator of `sortByMonth`:
ascending by `raceKey`, ties broken by ascending name
(`localeCompare` modelled as code-point order). -/
def raceLE (a b : Race) : Bool :=
  decide (raceKey a < raceKey b) ||
    (raceKey a == raceKey b && decide (a.name ≤ b.name))

/-- `sortByMonth(races)`: a sorted copy of `races` under the month/name
comparator.  `[...races].sort(cmp)` with a consistent comparator is the
stable sorted permutation of the input, which `mergeSort` computes. -/
def sortByMonth (races : List Race) : List Race :=
  races.mergeSort raceLE

/-! ### Helper lemmas -/

/-- `jsIndexOf` returns `-1` or a position inside the list. -/
theorem jsIndexOf_cases (l : List String) (x : String) :
    jsIndexOf l x = -1 ∨ (0 ≤ jsIndexOf l x ∧ (jsIndexOf l x).toNat < l.length) := by
  induction l with
  | nil => exact Or.inl rfl
  | cons y rest ih =>
    simp only [jsIndexOf]
    by_cases hy : (y == x) = true
    · simp only [hy, if_true]
      exact Or.inr ⟨le_refl 0, by simp⟩
    · simp only [Bool.not_eq_true] at hy
      simp only [hy, Bool.false_eq_true, if_false]
      rcases ih with hr | ⟨hr0, hrlen⟩
      · simp [hr]
      · have hne : (jsIndexOf rest x == -1) = false := by
          simp only [beq_eq_false_iff_ne, ne_eq]
          omega
        simp only [hne, Bool.false_eq_true, if_false]
        refine Or.inr ⟨by omega, ?_⟩
        simp only [List.length_cons]
        omega

/-- `jsIndexOf` returns `-1` exactly on missing elements. -/
theorem jsIndexOf_eq_neg_one_iff (l : List String) (x : String) :
    jsIndexOf l x = -1 ↔ x ∉ l := by
  induction l with
  | nil => simp [jsIndexOf]
  | cons y rest ih =>
    simp only [jsIndexOf, List.mem_cons]
    by_cases hy : (y == x) = true
    · have hxy : y = x := by simpa [beq_iff_eq] using hy
      simp [hy, hxy]
    · have hxy : ¬(x = y) := fun h => by simp [h.symm] at hy
      simp only [Bool.not_eq_true] at hy
      simp only [hy, Bool.false_eq_true, if_false]
      rcases jsIndexOf_cases rest x with hr | ⟨hr0, _⟩
      · simp [hr, ih.mp hr, hxy]
      · have hne : (jsIndexOf rest x == -1) = false := by
          simp only [beq_eq_false_iff_ne, ne_eq]
          omega
        simp only [hne, Bool.false_eq_true, if_false]
        constructor
        · intro h
          omega
        · intro h
          exact absurd (ih.mpr fun hm => h (Or.inr hm)) (by omega)

/-- A member's `jsIndexOf` is a valid position. -/
theorem jsIndexOf_bounds_of_mem (l : List String) (x : String) (h : x ∈ l) :
    0 ≤ jsIndexOf l x ∧ (jsIndexOf l x).toNat < l.length := by
  rcases jsIndexOf_cases l x with hc | hc
  · exact absurd ((jsIndexOf_eq_neg_one_iff l x).mp hc) (not_not_intro h)
  · exact hc

/-- `resolveIdx` never produces the sentinel `-1` wrapped in `some`. -/
theorem resolveIdx_ne_neg_one (cands headers : List String) (i : Int)
    (h : resolveIdx cands headers = some i) : i ≠ -1 := by
  have hp := List.find?_some h
  simpa [bne_iff_ne] using hp

/-- `resolveIdx` is: find the first synonym (in synonym-list order) that
occurs anywhere in the header row, and return its header position. -/
theorem resolveIdx_eq_find (cands headers : List String) :
    resolveIdx cands headers
      = (cands.find? (fun k => decide (k ∈ headers))).map (jsIndexOf headers) := by
  induction cands with
  | nil => rfl
  | cons c cs ih =>
    have key : (jsIndexOf headers c != -1) = decide (c ∈ headers) := by
      by_cases h : c ∈ headers
      · have hne : jsIndexOf headers c ≠ -1 :=
          fun he => (jsIndexOf_eq_neg_one_iff headers c).mp he h
        simp only [h, decide_True]
        simp [bne_iff_ne, hne]
      · simp only [h, decide_False]
        simp [bne_iff_ne, (jsIndexOf_eq_neg_one_iff headers c).mpr h]
    simp only [resolveIdx, List.map_cons] at *
    by_cases h : c ∈ headers
    · rw [List.find?_cons_of_pos _ (by rw [key]; simpa using h),
        List.find?_cons_of_pos _ (by simpa using h)]
      simp
    · rw [List.find?_cons_of_neg _ (by rw [key]; simpa using h),
        List.find?_cons_of_neg _ (by simpa using h)]
      exact ih

/-- When the schema resolves both required indices, neither is `-1`. -/
theorem schemaOf_ne_neg_one (lines : List String) (ni mi : Int) (wi : Option Int) (st : Nat)
    (hs : schemaOf lines = (some ni, some mi, wi, st)) : ni ≠ -1 ∧ mi ≠ -1 := by
  unfold schemaOf at hs
  by_cases hh : looksLikeHeader (jsSplit ',' (lines.headD "")) = true
  · simp only [hh, if_true, Prod.mk.injEq] at hs
    exact ⟨resolveIdx_ne_neg_one _ _ _ hs.1, resolveIdx_ne_neg_one _ _ _ hs.2.1⟩
  · simp only [Bool.not_eq_true] at hh
    simp only [hh, Bool.false_eq_true, if_false, Prod.mk.injEq, Option.some.injEq] at hs
    omega

/-- Unfolding `parseCsvToRaces` when the schema resolves. -/
theorem parse_eq_of_schema (now : Nat) (text : String) (ni mi : Int) (wi : Option Int) (st : Nat)
    (hne : nonBlankLines text ≠ [])
    (hs : schemaOf (nonBlankLines text) = (some ni, some mi, wi, st)) :
    parseCsvToRaces now text =
      .ok ((((nonBlankLines text).drop st).enum.map (mkRace now ni mi wi)).filter raceOk) := by
  obtain ⟨hni, hmi⟩ := schemaOf_ne_neg_one _ _ _ _ _ hs
  have hni' : (ni == -1) = false := beq_eq_false_iff_ne.mpr hni
  have hmi' : (mi == -1) = false := beq_eq_false_iff_ne.mpr hmi
  have hE : (nonBlankLines text).isEmpty = false := by
    cases h : nonBlankLines text with
    | nil => exact absurd h hne
    | cons a l => rfl
  simp only [parseCsvToRaces, hE, Bool.false_eq_true, if_false, hs, hni', hmi', Bool.or_self]

/-- Unfolding `parseCsvToRaces` when a required index is absent. -/
theorem parse_error_of_none (now : Nat) (text : String)
    (hne : nonBlankLines text ≠ [])
    (h : (schemaOf (nonBlankLines text)).1 = none ∨ (schemaOf (nonBlankLines text)).2.1 = none) :
    parseCsvToRaces now text = .error csvErrorMessage := by
  have hE : (nonBlankLines text).isEmpty = false := by
    cases hc : nonBlankLines text with
    | nil => exact absurd hc hne
    | cons a l => rfl
  simp only [parseCsvToRaces, hE, Bool.false_eq_true, if_false]
  rcases hsc : schemaOf (nonBlankLines text) with ⟨ni, mi, wi, st⟩
  rw [hsc] at h
  cases ni with
  | none => cases mi <;> rfl
  | some nv =>
    cases mi with
    | none => rfl
    | some mv => simp at h

/-- Per-cell characterization of the header-likeness test. -/
theorem headerLike_iff (cell : String) :
    ((if jsTrim cell == "" then false else !(jsIsNumeric (jsTrim cell))) = true) ↔
      (jsTrim cell ≠ "" ∧ jsIsNumeric (jsTrim cell) = false) := by
  by_cases h : jsTrim cell = ""
  · simp [h]
  · simp [beq_eq_false_iff_ne.mpr h, h, Bool.not_eq_true']

/-- C2: For every non-empty input, the first line is classified headered
iff at least one cell is non-empty after trimming and does not parse as
a number, and headerless iff every cell is, after trimming, empty or
parses as a number. -/
theorem headerDetection_first_line (text l0 : String) (rest : List String)
    (h : nonBlankLines text = l0 :: rest) :
    (looksLikeHeader (jsSplit ',' l0) = true ↔
       ∃ cell ∈ jsSplit ',' l0, jsTrim cell ≠ "" ∧ jsIsNumeric (jsTrim cell) = false) ∧
    (looksLikeHeader (jsSplit ',' l0) = false ↔
       ∀ cell ∈ jsSplit ',' l0, jsTrim cell = "" ∨ jsIsNumeric (jsTrim cell) = true) := by
  clear h
  have hany : looksLikeHeader (jsSplit ',' l0) = true ↔
      ∃ cell ∈ jsSplit ',' l0, jsTrim cell ≠ "" ∧ jsIsNumeric (jsTrim cell) = false := by
    simp only [looksLikeHeader, List.any_eq_true]
    constructor
    · rintro ⟨c, hm, hc⟩
      exact ⟨c, hm, (headerLike_iff c).mp hc⟩
    · rintro ⟨c, hm, hc⟩
      exact ⟨c, hm, (headerLike_iff c).mpr hc⟩
  refine ⟨hany, ?_⟩
  rw [← Bool.not_eq_true, hany]
  push_neg
  constructor
  · intro h cell hm
    rcases eq_or_ne (jsTrim cell) "" with he | he
    · exact Or.inl he
    · cases hb : jsIsNumeric (jsTrim cell) with
      | false => exact absurd hb (h cell hm he)
      | true => exact Or.inr rfl
  · intro h cell hm hne
    rcases h cell hm with he | he
    · exact absurd he hne
    · simp [he]

/-- Witness for C2 at the concrete input `"a,1"`. -/
theorem headerDetection_first_line_witness :
    (looksLikeHeader (jsSplit ',' "a,1") = true ↔
       ∃ cell ∈ jsSplit ',' "a,1", jsTrim cell ≠ "" ∧ jsIsNumeric (jsTrim cell) = false) ∧
    (looksLikeHeader (jsSplit ',' "a,1") = false ↔
       ∀ cell ∈ jsSplit ',' "a,1", jsTrim cell = "" ∨ jsIsNumeric (jsTrim cell) = true) :=
  headerDetection_first_line "a,1" "a,1" [] (by decide)

/-- The lower-cased, trimmed header cells of the first line
(the `headers` local of `parseCsvToRaces`). -/
def headersOf (lines : List String) : List String :=
  (jsSplit ',' (lines.headD "")).map (fun h => jsToLower (jsTrim h))

/-- C5: For headered input, each field index is resolved by scanning the
field's synonym list in order and returning the header position of the
first synonym that matches some header cell; synonym priority wins over
column position (`["race", "name"]` resolves the title index to column 1
because `"name"` precedes `"race"` in the synonym list), and no match
gives an absent index (via `Option.map` over `find?`). -/
theorem headered_synonym_resolution (lines : List String)
    (hh : looksLikeHeader (jsSplit ',' (lines.headD "")) = true) :
    schemaOf lines =
      ((nameCandidates.find? (fun k => decide (k ∈ headersOf lines))).map
          (jsIndexOf (headersOf lines)),
       (monthCandidates.find? (fun k => decide (k ∈ headersOf lines))).map
          (jsIndexOf (headersOf lines)),
       (websiteCandidates.find? (fun k => decide (k ∈ headersOf lines))).map
          (jsIndexOf (headersOf lines)),
       1) ∧
    resolveIdx nameCandidates ["race", "name"] = some 1 := by
  constructor
  · simp only [schemaOf, hh, if_true, headersOf, resolveIdx_eq_find]
  · decide

/-- Witness for C5 at the concrete header line `"race,month,website"`. -/
theorem headered_synonym_resolution_witness :
    schemaOf ["race,month,website"] =
      ((nameCandidates.find? (fun k => decide (k ∈ headersOf ["race,month,website"]))).map
          (jsIndexOf (headersOf ["race,month,website"])),
       (monthCandidates.find? (fun k => decide (k ∈ headersOf ["race,month,website"]))).map
          (jsIndexOf (headersOf ["race,month,website"])),
       (websiteCandidates.find? (fun k => decide (k ∈ headersOf ["race,month,website"]))).map
          (jsIndexOf (headersOf ["race,month,website"])),
       1) ∧
    resolveIdx nameCandidates ["race", "name"] = some 1 :=
  headered_synonym_resolution ["race,month,website"] (by decide)

/-- C4: Ingestion fails exactly when the title (name) or category
(month) index is absent; an absent website index is not an error, and
all emitted records then carry an empty website. -/
theorem schemaError_iff (now : Nat) (text : String) (hne : nonBlankLines text ≠ []) :
    ((parseCsvToRaces now text).isOk = false ↔
       (schemaOf (nonBlankLines text)).1 = none ∨ (schemaOf (nonBlankLines text)).2.1 = none) ∧
    ((schemaOf (nonBlankLines text)).2.2.1 = none →
       ∀ rs, parseCsvToRaces now text = .ok rs → ∀ r ∈ rs, r.website = "") := by
  rcases hsc : schemaOf (nonBlankLines text) with ⟨ni, mi, wi, st⟩
  constructor
  · cases ni with
    | none =>
      rw [parse_error_of_none now text hne (by rw [hsc]; exact Or.inl rfl)]
      simp [Except.isOk, Except.toBool]
    | some nv =>
      cases mi with
      | none =>
        rw [parse_error_of_none now text hne (by rw [hsc]; exact Or.inr rfl)]
        simp [Except.isOk, Except.toBool]
      | some mv =>
        rw [parse_eq_of_schema now text nv mv wi st hne hsc]
        simp [Except.isOk, Except.toBool]
  · intro hwi rs hok r hr
    simp only at hwi
    subst hwi
    cases ni with
    | none =>
      rw [parse_error_of_none now text hne (by rw [hsc]; exact Or.inl rfl)] at hok
      cases hok
    | some nv =>
      cases mi with
      | none =>
        rw [parse_error_of_none now text hne (by rw [hsc]; exact Or.inr rfl)] at hok
        cases hok
      | some mv =>
        rw [parse_eq_of_schema now text nv mv none st hne hsc] at hok
        simp only [Except.ok.injEq] at hok
        subst hok
        obtain ⟨hmem, -⟩ := List.mem_filter.mp hr
        obtain ⟨p, -, hpr⟩ := List.mem_map.mp hmem
        rw [← hpr]
        rfl

/-- Witness for C4: the header row `"color,size,price"` has no
resolvable title or category column, so ingestion fails. -/
theorem schemaError_iff_witness :
    (parseCsvToRaces 0 "color,size,price").isOk = false :=
  (schemaError_iff 0 "color,size,price" (by decide)).1.mpr (by decide)

/-- The validity test on a data line: trimmed title cell and trimmed
category cell both non-empty. -/
def rowValid (ni mi : Int) (line : String) : Bool :=
  jsTrim (cellAt (jsSplit ',' line) ni) != "" && jsTrim (cellAt (jsSplit ',' line) mi) != ""

/-- C3: When the schema resolves, the output has exactly one record per
data line whose trimmed title and category cells are non-empty, in input
line order; other lines are dropped, and every emitted record has
non-empty title and category. -/
theorem normalization_shape (now : Nat) (text : String) (rs : List Race)
    (h : parseCsvToRaces now text = .ok rs) :
    ∃ ni mi wi st, schemaOf (nonBlankLines text) = (some ni, some mi, wi, st) ∧
      rs = (((nonBlankLines text).drop st).enum.filter (fun p => rowValid ni mi p.2)).map
             (mkRace now ni mi wi) ∧
      ∀ r ∈ rs, r.name ≠ "" ∧ r.month ≠ "" := by
  by_cases hne : nonBlankLines text = []
  · simp only [parseCsvToRaces, hne, List.isEmpty_nil, if_true, Except.ok.injEq] at h
    subst h
    refine ⟨1, 2, some 3, 0, by rw [hne]; rfl, by rw [hne]; rfl, by simp⟩
  · rcases hsc : schemaOf (nonBlankLines text) with ⟨ni, mi, wi, st⟩
    cases ni with
    | none =>
      rw [parse_error_of_none now text hne (by rw [hsc]; exact Or.inl rfl)] at h
      cases h
    | some nv =>
      cases mi with
      | none =>
        rw [parse_error_of_none now text hne (by rw [hsc]; exact Or.inr rfl)] at h
        cases h
      | some mv =>
        rw [parse_eq_of_schema now text nv mv wi st hne hsc] at h
        simp only [Except.ok.injEq] at h
        subst h
        refine ⟨nv, mv, wi, st, rfl, ?_, ?_⟩
        · have hpred : (raceOk ∘ mkRace now nv mv wi) = (fun p => rowValid nv mv p.2) := by
            funext p
            rfl
          rw [List.filter_map, hpred]
        · intro r hr
          have h1 := (List.mem_filter.mp hr).2
          simpa [raceOk] using h1

/-- Witness for C3 at a concrete headered input. -/
theorem normalization_shape_witness :
    ∃ ni mi wi st,
      schemaOf (nonBlankLines "race,month,website\nUTMB,August,https://utmb.world")
        = (some ni, some mi, wi, st) ∧
      [({ id := 0, name := "UTMB", month := "August", website := "https://utmb.world",
          registered := false, finishTime := "" } : Race)]
        = (((nonBlankLines "race,month,website\nUTMB,August,https://utmb.world").drop st).enum.filter
             (fun p => rowValid ni mi p.2)).map (mkRace 0 ni mi wi) ∧
      ∀ r ∈ [({ id := 0, name := "UTMB", month := "August", website := "https://utmb.world",
                registered := false, finishTime := "" } : Race)],
        r.name ≠ "" ∧ r.month ≠ "" :=
  normalization_shape 0 "race,month,website\nUTMB,August,https://utmb.world"
    [{ id := 0, name := "UTMB", month := "August", website := "https://utmb.world",
       registered := false, finishTime := "" }] (by rfl)

/-- C8: An input with no non-blank lines yields zero records without
error, and a single header line with resolvable title and category
columns also yields zero records without error. -/
theorem emptyAndHeaderOnly_input (now : Nat) (text : String) :
    (nonBlankLines text = [] → parseCsvToRaces now text = .ok []) ∧
    (∀ l0 : String, nonBlankLines text = [l0] →
       looksLikeHeader (jsSplit ',' l0) = true →
       (schemaOf [l0]).1.isSome → (schemaOf [l0]).2.1.isSome →
       parseCsvToRaces now text = .ok []) := by
  constructor
  · intro h
    simp only [parseCsvToRaces, h, List.isEmpty_nil, if_true]
  · intro l0 h hh h1 h2
    rcases hsc : schemaOf [l0] with ⟨ni, mi, wi, st⟩
    rw [hsc] at h1 h2
    cases ni with
    | none => simp at h1
    | some nv =>
      cases mi with
      | none => simp at h2
      | some mv =>
        have hst : st = 1 := by
          have hsc' := hsc
          simp only [schemaOf, List.headD_cons, hh, if_true, Prod.mk.injEq] at hsc'
          exact hsc'.2.2.2.symm
        rw [parse_eq_of_schema now text nv mv wi st (by rw [h]; simp) (by rw [h]; exact hsc)]
        rw [h, hst]
        rfl

/-- Witness for C8: a blank input and the header-only input
`"race,month,website"` both yield zero records. -/
theorem emptyAndHeaderOnly_input_witness :
    parseCsvToRaces 0 " \n" = .ok [] ∧ parseCsvToRaces 0 "race,month,website" = .ok [] :=
  ⟨(emptyAndHeaderOnly_input 0 " \n").1 (by decide),
   (emptyAndHeaderOnly_input 0 "race,month,website").2 "race,month,website"
     (by decide) (by decide) (by decide) (by decide)⟩

/-- C9: An input whose first line is classified headerless always parses
without error: the positional indices `1` and `2` are assigned, so the
schema-error branch is unreachable. -/
theorem headerless_never_raises (now : Nat) (text : String) (l0 : String) (rest : List String)
    (h : nonBlankLines text = l0 :: rest)
    (hh : looksLikeHeader (jsSplit ',' l0) = false) :
    ∃ rs, parseCsvToRaces now text = .ok rs := by
  have hsc : schemaOf (nonBlankLines text) = (some 1, some 2, some 3, 0) := by
    rw [h]
    simp only [schemaOf, List.headD_cons, hh, Bool.false_eq_true, if_false]
  exact ⟨_, parse_eq_of_schema now text 1 2 (some 3) 0 (by rw [h]; simp) hsc⟩

/-- Witness for C9 at the all-numeric input `"1,2,3,4"`. -/
theorem headerless_never_raises_witness :
    ∃ rs, parseCsvToRaces 0 "1,2,3,4" = .ok rs :=
  headerless_never_raises 0 "1,2,3,4" "1,2,3,4" [] (by decide) (by decide)

/-- C1 (code bug): the single-line input
`"1,Moggollon 100,September,https://x/m"` is classified headered
(because `"Moggollon 100"` does not parse as a number), synonym
resolution then finds no title or category column, and ingestion raises
the schema error instead of returning one record.  The same happens on
the input of the source's own headerless smoke test, whose assertions
therefore fail. -/
theorem mixedRow_schema_error (now : Nat) :
    parseCsvToRaces now "1,Moggollon 100,September,https://x/m" = .error csvErrorMessage ∧
    parseCsvToRaces now
        ("1,Moggollon 100,September,https://example.com/moggollon\n" ++
         "2,Falling Water 100k,April,https://example.com/falling-water\n")
      = .error csvErrorMessage ∧
    looksLikeHeader (jsSplit ',' "1,Moggollon 100,September,https://x/m") = true :=
  ⟨parse_error_of_none now _ (by decide) (Or.inl (by decide)),
   parse_error_of_none now _ (by decide) (Or.inl (by decide)),
   by decide⟩

/-- The comparator relation is transitive. -/
theorem raceLE_trans : ∀ a b c : Race, raceLE a b = true → raceLE b c = true → raceLE a c = true := by
  intro a b c h1 h2
  simp only [raceLE, Bool.or_eq_true, Bool.and_eq_true, decide_eq_true_eq, beq_iff_eq] at *
  rcases h1 with h1 | ⟨h1k, h1n⟩ <;> rcases h2 with h2 | ⟨h2k, h2n⟩
  · exact Or.inl (Nat.lt_trans h1 h2)
  · exact Or.inl (h2k ▸ h1)
  · exact Or.inl (h1k ▸ h2)
  · exact Or.inr ⟨h1k.trans h2k, le_trans h1n h2n⟩

/-- The comparator relation is total. -/
theorem raceLE_total : ∀ a b : Race, (raceLE a b || raceLE b a) = true := by
  intro a b
  simp only [raceLE, Bool.or_eq_true, Bool.and_eq_true, decide_eq_true_eq, beq_iff_eq]
  rcases Nat.lt_trichotomy (raceKey a) (raceKey b) with h | h | h
  · exact Or.inl (Or.inl h)
  · rcases le_total a.name b.name with hn | hn
    · exact Or.inl (Or.inr ⟨h, hn⟩)
    · exact Or.inr (Or.inr ⟨h.symm, hn⟩)
  · exact Or.inr (Or.inl h)

/-- What the comparator relation says about a pair. -/
theorem raceLE_spec (a b : Race) (h : raceLE a b = true) :
    raceKey a ≤ raceKey b ∧ (raceKey a = raceKey b → a.name ≤ b.name) := by
  simp only [raceLE, Bool.or_eq_true, Bool.and_eq_true, decide_eq_true_eq, beq_iff_eq] at h
  rcases h with h | ⟨hk, hn⟩
  · exact ⟨Nat.le_of_lt h, fun he => absurd he (Nat.ne_of_lt h)⟩
  · exact ⟨le_of_eq hk, fun _ => hn⟩

/-- The output of `sortByMonth` is pairwise ordered by the comparator. -/
theorem sortByMonth_pairwise (races : List Race) :
    (sortByMonth races).Pairwise (fun a b => raceLE a b = true) := by
  have h := List.sorted_mergeSort raceLE_trans raceLE_total races
  simpa [sortByMonth] using h

/-- C6: After `sortByMonth`, every adjacent pair has non-decreasing
month rank, and equal ranks are ordered by name. -/
theorem sortByMonth_sorted (races : List Race) :
    List.Chain' (fun r1 r2 => raceKey r1 ≤ raceKey r2 ∧
      (raceKey r1 = raceKey r2 → r1.name ≤ r2.name)) (sortByMonth races) :=
  List.Chain'.imp (fun _ _ h => raceLE_spec _ _ h) (sortByMonth_pairwise races).chain'

/-- An unknown month gets the fallback key. -/
theorem raceKey_of_not_mem (r : Race) (h : jsTrim r.month ∉ monthOrder) :
    raceKey r = MAX_SAFE_INTEGER := by
  have he := (jsIndexOf_eq_neg_one_iff monthOrder (jsTrim r.month)).mpr h
  simp [raceKey, he]

/-- A known month gets its taxonomy position as key. -/
theorem raceKey_of_mem (r : Race) (h : jsTrim r.month ∈ monthOrder) :
    raceKey r < monthOrder.length := by
  obtain ⟨h0, hlt⟩ := jsIndexOf_bounds_of_mem monthOrder (jsTrim r.month) h
  have hne : (jsIndexOf monthOrder (jsTrim r.month) == -1) = false := by
    simp only [beq_eq_false_iff_ne, ne_eq]
    omega
  simpa [raceKey, hne] using hlt

/-- C7: A record whose trimmed category is not one of the twelve
canonical month names gets a rank strictly above every valid rank, so in
the sorted output every unknown-month record comes after every
known-month record: sorted batches have the unknown block at the end. -/
theorem unknownMonths_sortLast :
    (∀ r : Race, jsTrim r.month ∉ monthOrder →
       raceKey r = MAX_SAFE_INTEGER ∧ ∀ i, i < monthOrder.length → i < raceKey r) ∧
    (∀ r u : Race, jsTrim r.month ∈ monthOrder → jsTrim u.month ∉ monthOrder →
       raceKey r < raceKey u) ∧
    (∀ races : List Race, (sortByMonth races).Pairwise
       (fun r1 r2 => jsTrim r1.month ∉ monthOrder → jsTrim r2.month ∉ monthOrder)) := by
  have hlen : monthOrder.length < MAX_SAFE_INTEGER := by decide
  have hkey : ∀ r : Race, jsTrim r.month ∉ monthOrder →
      raceKey r = MAX_SAFE_INTEGER ∧ ∀ i, i < monthOrder.length → i < raceKey r := by
    intro r h
    refine ⟨raceKey_of_not_mem r h, fun i hi => ?_⟩
    rw [raceKey_of_not_mem r h]
    omega
  refine ⟨hkey, fun r u hr hu => ?_, fun races => ?_⟩
  · have h1 := raceKey_of_mem r hr
    have h2 := (hkey u hu).1
    omega
  · refine (sortByMonth_pairwise races).imp ?_
    intro a b hab ha
    by_contra hb
    have h1 := (raceLE_spec a b hab).1
    have h2 := (hkey a ha).1
    have h3 := raceKey_of_mem b hb
    omega

/-- Witness for C7: a record with month `"March"` ranks strictly below
one with the unknown month `"Smarch"`. -/
theorem unknownMonths_sortLast_witness :
    raceKey { id := 1, name := "B", month := "March", website := "",
              registered := false, finishTime := "" } <
      raceKey { id := 0, name := "A", month := "Smarch", website := "",
                registered := false, finishTime := "" } :=
  unknownMonths_sortLast.2.1 _ _ (by decide) (by decide)

/-- C10: `sortByMonth` returns a permutation of its input (and, being a
pure function on immutable lists mirroring the source's copy-then-sort,
leaves the input and its records unchanged). -/
theorem sortByMonth_perm (races : List Race) : (sortByMonth races).Perm races :=
  List.mergeSort_perm races raceLE

end UltraDashboard
